import Mathlib

/-!
Verification of the protocol-translation core of an Anthropic→OpenAI
API-compatibility gateway.  Shallow embedding of the TypeScript sources:

* `non-stream-translation.ts` — model-name normalizer, content mapper,
  request translator, non-streaming response translator;
* `create-chat-completions.ts` — external-image resolution and the
  X-Initiator header computation;
* `routes/messages/handler.ts` — the streaming loop.

JavaScript strings are modelled as `String` / `List Char`; JSON object
values that the code only passes around opaquely (tool inputs and
arguments) are modelled as their serialized strings; `undefined`/`null`
optional fields are modelled with `Option`.
-/

/-! ## Model-name normalizer (`translateModelName`)

The source applies, in order:
1. strip a trailing bracket suffix, JS regex `\[.*\]$` (leftmost match,
   `.` does not cross a newline);
2. strip a trailing 8-digit date suffix, JS regex `-\d{8}$`;
3. rewrite a trailing hyphenated minor version, JS regex
   `^(.*-\d+)-(\d+)$`, into dot form `group1 ++ "." ++ group2`.
-/

/-- JS `\d`: an ASCII decimal digit. -/
def isDig (c : Char) : Bool := c.isDigit

/-- Scan the part of the string before the final `]` for the leftmost `[`
such that the region between it and the final `]` contains no newline
(JS `.` does not match `\n`); return the prefix before that `[`. -/
def bracketCore (acc : List Char) : List Char → Option (List Char)
  | [] => none
  | c :: rest =>
    if c = '[' && !(rest.contains '\n') then some acc.reverse
    else bracketCore (c :: acc) rest

/-- Leftmost match of JS `\[.*\]$`: the string must end with `]`; the
result is the prefix kept after deleting the match. -/
def bracketReplace (s : List Char) : Option (List Char) :=
  if s.getLast? == some ']' then bracketCore [] s.dropLast else none

/-- Step 1 of `translateModelName`: strip a trailing `[...]` suffix. -/
def bracketStrip (s : List Char) : List Char := (bracketReplace s).getD s

/-- Whether the bracket-suffix regex `\[.*\]$` matches. -/
def bracketHasMatch (s : List Char) : Bool := (bracketReplace s).isSome

/-- Whether the date-suffix regex `-\d{8}$` matches: the final 8
characters are digits and the character before them is `-`. -/
def dateHasMatch (s : List Char) : Bool :=
  let r := s.reverse
  (r.take 8).length == 8 && (r.take 8).all isDig && (r.drop 8).head? == some '-'

/-- Step 2 of `translateModelName`: strip a trailing `-YYYYMMDD` suffix. -/
def dateStrip (s : List Char) : List Char :=
  if dateHasMatch s then (s.reverse.drop 9).reverse else s

/-- Greedy match of JS `^(.*-\d+)-(\d+)$` computed on the reversed
string: group 2 is the maximal trailing digit run (must be nonempty and
preceded by `-`), group 1 ends with the maximal digit run before that
`-` (also nonempty and preceded by `-`), and the remaining prefix (the
`.*` part) may not contain a newline.  Returns
`(digits₂.reverse, digits₁.reverse, prefix.reverse)` on a match. -/
def minorMatchR (r : List Char) : Option (List Char × List Char × List Char) :=
  match r.dropWhile isDig with
  | [] => none
  | c :: r3 =>
    if (r.takeWhile isDig).isEmpty then none
    else if c = '-' then
      match r3.dropWhile isDig with
      | [] => none
      | c2 :: r5 =>
        if (r3.takeWhile isDig).isEmpty then none
        else if c2 = '-' then
          if r5.contains '\n' then none
          else some (r.takeWhile isDig, r3.takeWhile isDig, r5)
        else none
    else none

/-- Rewrite on the reversed string: `digits₂ ++ "-" ++ digits₁ ++ "-" ++ rest`
becomes `digits₂ ++ "." ++ digits₁ ++ "-" ++ rest` (all reversed). -/
def minorRewriteR (r : List Char) : List Char :=
  match minorMatchR r with
  | some (d2, d1, r5) => d2 ++ '.' :: d1 ++ '-' :: r5
  | none => r

/-- Step 3 of `translateModelName`: `result.replace(/^(.*-\d+)-(\d+)$/, "$1.$2")`. -/
def minorRewrite (s : List Char) : List Char := (minorRewriteR s.reverse).reverse

/-- `translateModelName` from `non-stream-translation.ts`: strip bracket
suffix, then date suffix, then convert the trailing hyphen minor version
to dot form. -/
def translateModelName (s : String) : String :=
  (minorRewrite (dateStrip (bracketStrip s.data))).asString

example : translateModelName "claude-opus-4.6[1m]" = "claude-opus-4.6" := by decide
example : translateModelName "claude-sonnet-4-20250514" = "claude-sonnet-4" := by decide
example : translateModelName "claude-haiku-4-5" = "claude-haiku-4.5" := by decide
example : translateModelName "gpt-4o" = "gpt-4o" := by decide
example : translateModelName "x-20250514-20250514" = "x-20250514" := by decide
example : translateModelName "x-1-2-3" = "x-1-2.3" := by decide

/-! ## Upstream (OpenAI-shaped) data model, from `create-chat-completions.ts` -/

/-- Upstream message roles. -/
inductive Role
  | user | assistant | system | tool | developer
  deriving DecidableEq, Repr

/-- Upstream content part: `text` or `image_url` (with optional detail). -/
inductive ContentPart
  | text (text : String)
  | image_url (url : String) (detail : Option String)
  deriving DecidableEq, Repr

/-- Upstream message content: `string | Array<ContentPart> | null`. -/
inductive MsgContent
  | str (s : String)
  | parts (ps : List ContentPart)
  | null
  deriving DecidableEq, Repr

/-- Upstream tool call; `arguments` is a JSON-encoded string. -/
structure ToolCall where
  id : String
  name : String
  arguments : String
  deriving DecidableEq, Repr

/-- Upstream chat message. -/
structure Message where
  role : Role
  content : MsgContent
  tool_calls : Option (List ToolCall) := none
  tool_call_id : Option String := none
  deriving DecidableEq, Repr

/-- Upstream request payload (fields the embedded code reads). -/
structure ChatCompletionsPayload where
  model : String
  messages : List Message
  max_tokens : Option Int := none
  stream : Option Bool := none
  deriving DecidableEq, Repr

/-! ## Source (Anthropic-shaped) data model, reconstructed from its uses
in `non-stream-translation.ts` -/

/-- A block inside a `tool_result`'s list content: text or image. -/
inductive TRBlock
  | text (text : String)
  | image (media_type : String) (data : String)
  deriving DecidableEq, Repr

/-- `tool_result.content`: a plain string or a list of text/image blocks. -/
inductive ToolResultContent
  | str (s : String)
  | blocks (bs : List TRBlock)
  deriving DecidableEq, Repr

/-- Source content block.  `tool_use.input` is a structured JSON value,
modelled by its serialized string (the code only ever re-serializes it). -/
inductive ContentBlock
  | text (text : String)
  | thinking (thinking : String)
  | image (media_type : String) (data : String)
  | tool_use (id : String) (name : String) (input : String)
  | tool_result (tool_use_id : String) (content : ToolResultContent)
  deriving DecidableEq, Repr

/-- Source message content: a plain string or a list of content blocks. -/
inductive AnthContent
  | str (s : String)
  | blocks (bs : List ContentBlock)
  deriving DecidableEq, Repr

/-- Source user message (role implicit). -/
structure AnthropicUserMessage where
  content : AnthContent
  deriving DecidableEq, Repr

/-- Source assistant message (role implicit). -/
structure AnthropicAssistantMessage where
  content : AnthContent
  deriving DecidableEq, Repr

/-! ## Content mapper, from `non-stream-translation.ts` -/

/-- Discriminator for `block.type === "text"`. -/
def isTextBlock : ContentBlock → Bool
  | .text _ => true
  | _ => false

/-- Discriminator for `block.type === "thinking"`. -/
def isThinkingBlock : ContentBlock → Bool
  | .thinking _ => true
  | _ => false

/-- Discriminator for `block.type === "image"`. -/
def isImageBlock : ContentBlock → Bool
  | .image _ _ => true
  | _ => false

/-- Discriminator for `block.type === "tool_use"`. -/
def isToolUse : ContentBlock → Bool
  | .tool_use _ _ _ => true
  | _ => false

/-- Discriminator for `block.type === "tool_result"`. -/
def isToolResult : ContentBlock → Bool
  | .tool_result _ _ => true
  | _ => false

/-- The text carried by a `text` or `thinking` block
(`block.type === "text" ? block.text : block.thinking`). -/
def blockText : ContentBlock → String
  | .text t => t
  | .thinking t => t
  | _ => ""

/-- One arm of the `switch` in `mapContent`: `text` and `thinking`
become text parts, `image` becomes a data-URI image part, other block
kinds fall through the switch and produce nothing. -/
def blockToPart : ContentBlock → Option ContentPart
  | .text t => some (.text t)
  | .thinking t => some (.text t)
  | .image mt d => some (.image_url ("data:" ++ mt ++ ";base64," ++ d) none)
  | _ => none

/-- `mapContent`: a string passes through; a block list with no image
block collapses the text/thinking blocks (in order) joined by `"\n\n"`;
with an image block it becomes an ordered content-part list. -/
def mapContent : AnthContent → MsgContent
  | .str s => .str s
  | .blocks bs =>
    if bs.any isImageBlock then
      .parts (bs.filterMap blockToPart)
    else
      .str (String.intercalate "\n\n" ((bs.filter (fun b => isTextBlock b || isThinkingBlock b)).map blockText))

/-- `mapToolResultContent`: string passes through; a block list without
images flattens its text blocks joined by `"\n\n"`; with an image it
becomes a content-part list. -/
def mapToolResultContent : ToolResultContent → MsgContent
  | .str s => .str s
  | .blocks bs =>
    if bs.any (fun b => match b with | .image _ _ => true | _ => false) then
      .parts (bs.map (fun b => match b with
        | .text t => .text t
        | .image mt d => .image_url ("data:" ++ mt ++ ";base64," ++ d) none))
    else
      .str (String.intercalate "\n\n"
        ((bs.filter (fun b => match b with | .text _ => true | _ => false)).map
          (fun b => match b with | .text t => t | _ => "")))

/-- Translation of one `tool_result` block to a tool-role message
(the loop body in `handleUserMessage`). -/
def toolResultToMsg : ContentBlock → Message
  | .tool_result tid c =>
    { role := .tool, content := mapToolResultContent c, tool_call_id := some tid }
  | _ => { role := .tool, content := .null }

/-- `handleUserMessage`: tool_result blocks become tool-role messages
first; the remaining blocks, if any, become one user-role message. -/
def handleUserMessage (m : AnthropicUserMessage) : List Message :=
  match m.content with
  | .blocks bs =>
    let toolResultBlocks := bs.filter isToolResult
    let otherBlocks := bs.filter (fun b => !(isToolResult b))
    toolResultBlocks.map toolResultToMsg
      ++ (if 0 < otherBlocks.length then
            [{ role := .user, content := mapContent (.blocks otherBlocks) }]
          else [])
  | .str s => [{ role := .user, content := mapContent (.str s) }]

/-- The `allTextContent` computation in `handleAssistantMessage`: text
blocks first, then thinking blocks, joined by `"\n\n"`. -/
def assistantAllText (bs : List ContentBlock) : String :=
  String.intercalate "\n\n"
    ((bs.filter isTextBlock).map blockText ++ (bs.filter isThinkingBlock).map blockText)

/-- A `tool_use` block's translation to an upstream tool call
(`arguments := JSON.stringify(input)`, with JSON values modelled as
their serialized strings). -/
def toolUseToCall : ContentBlock → ToolCall
  | .tool_use i n inp => { id := i, name := n, arguments := inp }
  | _ => { id := "", name := "", arguments := "" }

/-- `handleAssistantMessage`: with tool_use blocks present the message
carries `tool_calls` and `allTextContent || null` as content; otherwise
the content is `mapContent` of the block list. -/
def handleAssistantMessage (m : AnthropicAssistantMessage) : List Message :=
  match m.content with
  | .str s => [{ role := .assistant, content := mapContent (.str s) }]
  | .blocks bs =>
    let toolUseBlocks := bs.filter isToolUse
    if 0 < toolUseBlocks.length then
      [{ role := .assistant,
         content := if assistantAllText bs = "" then .null else .str (assistantAllText bs),
         tool_calls := some (toolUseBlocks.map toolUseToCall) }]
    else
      [{ role := .assistant, content := mapContent (.blocks bs) }]

example :
    handleUserMessage ⟨.blocks [.tool_result "t1" (.str "42"), .text "thanks"]⟩
      = [{ role := .tool, content := .str "42", tool_call_id := some "t1" },
         { role := .user, content := .str "thanks" }] := by decide
example :
    handleAssistantMessage ⟨.blocks [.thinking "A", .text "B", .tool_use "i" "n" "\x7b\x7d"]⟩
      = [{ role := .assistant, content := .str "B\n\nA",
           tool_calls := some [{ id := "i", name := "n", arguments := "\x7b\x7d" }] }] := by decide
example :
    handleAssistantMessage ⟨.blocks [.text ""]⟩
      = [{ role := .assistant, content := .str "" }] := by decide

/-! ## Non-streaming response translation, from `non-stream-translation.ts` -/

/-- Upstream `finish_reason` values (non-null in a complete response). -/
inductive FinishReason
  | stop | length | tool_calls | content_filter
  deriving DecidableEq, Repr

/-- Source-protocol terminal stop reasons. -/
inductive AnthropicStopReason
  | end_turn | max_tokens | tool_use | stop_sequence
  deriving DecidableEq, Repr

/-- Modelled from the spec: `mapOpenAIStopReasonToAnthropic` lives in
`routes/messages/utils.ts`, which is not among the provided sources; §4.3
step 4 gives its vocabulary: `stop→end_turn`, `length→max_tokens`,
`tool_calls→tool_use`, `content_filter→stop_sequence`, unknown/null left
unset. -/
def mapOpenAIStopReasonToAnthropic : Option FinishReason → Option AnthropicStopReason
  | some .stop => some .end_turn
  | some .length => some .max_tokens
  | some .tool_calls => some .tool_use
  | some .content_filter => some .stop_sequence
  | none => none

/-- `prompt_tokens_details` of the upstream usage block. -/
structure PromptTokensDetails where
  cached_tokens : Int
  deriving DecidableEq, Repr

/-- Upstream usage block (token counts are JS numbers, modelled as `Int`). -/
structure CCUsage where
  prompt_tokens : Int
  completion_tokens : Int
  total_tokens : Int
  prompt_tokens_details : Option PromptTokensDetails := none
  deriving DecidableEq, Repr

/-- Upstream non-streaming response message. -/
structure ResponseMessage where
  content : Option String
  tool_calls : Option (List ToolCall) := none
  deriving DecidableEq, Repr

/-- One upstream non-streaming choice. -/
structure ChoiceNS where
  message : ResponseMessage
  finish_reason : FinishReason
  deriving DecidableEq, Repr

/-- Complete upstream response (fields the translator reads). -/
structure ChatCompletionResponse where
  id : String
  model : String
  choices : List ChoiceNS
  usage : Option CCUsage := none
  deriving DecidableEq, Repr

/-- Source-protocol usage block produced by the translator. -/
structure AnthropicUsage where
  input_tokens : Int
  output_tokens : Int
  cache_read_input_tokens : Option Int := none
  deriving DecidableEq, Repr

/-- Source-protocol complete response. -/
structure AnthropicResponse where
  id : String
  model : String
  content : List ContentBlock
  stop_reason : Option AnthropicStopReason
  stop_sequence : Option String
  usage : AnthropicUsage
  deriving DecidableEq, Repr

/-- `getAnthropicTextBlocks`: string content yields one text block,
null yields none (upstream response content is `string | null`). -/
def getAnthropicTextBlocks : Option String → List ContentBlock
  | some s => [.text s]
  | none => []

/-- `getAnthropicToolUseBlocks`: one `tool_use` block per call, `input`
parsed from the JSON-encoded arguments (JSON values modelled as their
serialized strings). -/
def getAnthropicToolUseBlocks : Option (List ToolCall) → List ContentBlock
  | none => []
  | some tcs => tcs.map (fun tc => .tool_use tc.id tc.name tc.arguments)

/-- The stop-reason computation of `translateToAnthropic`: initialize to
the first choice's `finish_reason` (or null), then for each choice, if
its reason is `tool_calls` or the current reason is `stop`, take that
choice's reason. -/
def computeStopReason (choices : List ChoiceNS) : Option FinishReason :=
  choices.foldl
    (fun sr c =>
      if c.finish_reason = .tool_calls ∨ sr = some .stop then some c.finish_reason else sr)
    ((choices.head?).map (·.finish_reason))

/-- `translateToAnthropic`: merge all choices' text blocks then all
tool-use blocks, compute the stop reason, and build the usage block
(`input_tokens = prompt_tokens − cached_tokens`, `output_tokens =
completion_tokens`, with a cache-read counter exactly when the upstream
cached-token detail is present). -/
def translateToAnthropic (r : ChatCompletionResponse) : AnthropicResponse :=
  { id := r.id
    model := r.model
    content :=
      (r.choices.map (fun c => getAnthropicTextBlocks c.message.content)).flatten
        ++ (r.choices.map (fun c => getAnthropicToolUseBlocks c.message.tool_calls)).flatten
    stop_reason := mapOpenAIStopReasonToAnthropic (computeStopReason r.choices)
    stop_sequence := none
    usage :=
      { input_tokens :=
          (match r.usage with | some u => u.prompt_tokens | none => 0)
            - (match r.usage.bind (·.prompt_tokens_details) with
               | some d => d.cached_tokens | none => 0)
        output_tokens := (match r.usage with | some u => u.completion_tokens | none => 0)
        cache_read_input_tokens :=
          (r.usage.bind (·.prompt_tokens_details)).map (·.cached_tokens) } }

example :
    computeStopReason
      [{ message := { content := some "a" }, finish_reason := .stop },
       { message := { content := some "b" }, finish_reason := .length }]
      = some .length := by decide
example :
    computeStopReason
      [{ message := { content := some "a" }, finish_reason := .length },
       { message := { content := some "b" }, finish_reason := .tool_calls },
       { message := { content := some "c" }, finish_reason := .stop }]
      = some .tool_calls := by decide

/-! ## External-image resolution and X-Initiator, from `create-chat-completions.ts`

`fetchImageAsBase64` performs network I/O; it is modelled by an oracle
`fetch : String → Option String` mapping a URL to `some dataUri` on
success and `none` on failure (the thrown error, which the caller
catches). -/

/-- `url.startsWith("data:")`. -/
def startsWithDataUri (u : String) : Bool := List.isPrefixOf "data:".data u.data

/-- A part is an external image reference: an `image_url` part whose URL
is not a data URI. -/
def isExternalImagePart : ContentPart → Bool
  | .image_url u _ => !(startsWithDataUri u)
  | _ => false

/-- The URL of an `image_url` part. -/
def partUrl : ContentPart → String
  | .image_url u _ => u
  | _ => ""

/-- The per-part body of `resolveExternalImages`: non-image and data-URI
parts pass through; otherwise the fetched data URI replaces the URL, and
on fetch failure the original part is returned (the `catch` branch). -/
def resolvePart (fetch : String → Option String) : ContentPart → ContentPart
  | .text t => .text t
  | .image_url u d =>
    if startsWithDataUri u then .image_url u d
    else match fetch u with
      | some b64 => .image_url b64 d
      | none => .image_url u d

/-- Whether any message carries an external image reference. -/
def hasExternalUrls (payload : ChatCompletionsPayload) : Bool :=
  payload.messages.any (fun msg =>
    match msg.content with
    | .parts ps => ps.any isExternalImagePart
    | _ => false)

/-- The per-message body of `resolveExternalImages`. -/
def resolveMessage (fetch : String → Option String) (msg : Message) : Message :=
  match msg.content with
  | .parts ps => { msg with content := .parts (ps.map (resolvePart fetch)) }
  | _ => msg

/-- `resolveExternalImages`: rewrite external image URLs to data URIs,
returning the payload unchanged when no external URL is present.  The
function is total: a failed fetch never aborts the request. -/
def resolveExternalImages (fetch : String → Option String)
    (payload : ChatCompletionsPayload) : ChatCompletionsPayload :=
  if hasExternalUrls payload then
    { payload with messages := payload.messages.map (resolveMessage fetch) }
  else payload

/-- `["assistant", "tool"].includes(msg.role)` over the message list. -/
def isAgentCall (msgs : List Message) : Bool :=
  msgs.any (fun msg => msg.role = .assistant || msg.role = .tool)

/-- The `X-Initiator` header value computed by `createChatCompletions`
(on the payload after external-image resolution). -/
def xInitiatorHeader (fetch : String → Option String)
    (payload : ChatCompletionsPayload) : String :=
  if isAgentCall (resolveExternalImages fetch payload).messages then "agent" else "user"

/-! ## Streaming event translation

`routes/messages/handler.ts` (in the sources) emits a `ping` SSE event,
then loops over raw upstream events: `"[DONE]"` breaks, empty data
continues, otherwise the chunk is parsed and handed to
`translateChunkToAnthropicEvents`; a processing error emits one error
event and breaks.  `stream-translation.ts` itself is not among the
provided sources, so the per-chunk translator below is modelled from the
spec, §4.3. -/

/-- Block-opening information carried by `content_block_start`. -/
inductive BlockStartInfo
  | text
  | tool_use (id : String) (name : String)
  deriving DecidableEq, Repr

/-- Delta payload carried by `content_block_delta`. -/
inductive DeltaPayload
  | text_delta (s : String)
  | input_json_delta (s : String)
  deriving DecidableEq, Repr

/-- Source-protocol stream events. -/
inductive AnthEvent
  | ping
  | message_start
  | content_block_start (idx : Nat) (info : BlockStartInfo)
  | content_block_delta (idx : Nat) (delta : DeltaPayload)
  | content_block_stop (idx : Nat)
  | message_delta (stop_reason : Option AnthropicStopReason)
  | message_stop
  | error
  deriving DecidableEq, Repr

/-- One tool-call entry of a fragment's `delta.tool_calls`. -/
structure DeltaToolCall where
  index : Nat
  id : Option String := none
  name : Option String := none
  arguments : Option String := none
  deriving DecidableEq, Repr

/-- One decoded upstream stream fragment (single-choice view, as in §3). -/
structure Fragment where
  content : Option String := none
  tool_calls : List DeltaToolCall := []
  finish_reason : Option FinishReason := none
  deriving DecidableEq, Repr

/-- Accumulator entry for one upstream tool-call index (§3): the source
block index it was opened at, its id/name, and the arguments emitted so
far. -/
structure ToolAcc where
  blockIndex : Nat
  id : String
  name : String
  args : String
  deriving DecidableEq, Repr

/-- Modelled from the spec: the per-stream accumulator of §3, with the
fields initialized by `handler.ts` (`messageStartSent`,
`contentBlockIndex`, `contentBlockOpen`, `toolCalls`) plus two fields
the spec's state machine needs but does not name explicitly: whether the
open block is a tool-use block (§4.3 step 2) and whether a
`finish_reason` already ended the event sequence (§4.3 step 4,
"no further fragments are processed"). -/
structure StreamSt where
  messageStartSent : Bool
  contentBlockIndex : Nat
  contentBlockOpen : Bool
  openBlockIsTool : Bool
  toolCalls : List (Nat × ToolAcc)
  finished : Bool
  deriving DecidableEq, Repr

/-- The initial accumulator built in `handler.ts`. -/
def initStreamState : StreamSt :=
  { messageStartSent := false, contentBlockIndex := 0, contentBlockOpen := false,
    openBlockIsTool := false, toolCalls := [], finished := false }

/-- Close the currently open block, if any (`content_block_stop` at the
open block's index). -/
def closeOpenBlock (st : StreamSt) : List AnthEvent × StreamSt :=
  if st.contentBlockOpen then
    ([.content_block_stop (st.contentBlockIndex - 1)], { st with contentBlockOpen := false })
  else ([], st)

/-- Modelled from the spec: §4.3 step 2 — on a present, non-empty text
delta, (re)open a text block when none is open or a tool-use block is
open, then emit the text delta at the open block's index. -/
def stepContent (st : StreamSt) : Option String → List AnthEvent × StreamSt
  | none => ([], st)
  | some s =>
    if s = "" then ([], st)
    else if !st.contentBlockOpen || st.openBlockIsTool then
      ((closeOpenBlock st).1
         ++ [.content_block_start (closeOpenBlock st).2.contentBlockIndex .text,
             .content_block_delta (closeOpenBlock st).2.contentBlockIndex (.text_delta s)],
       { (closeOpenBlock st).2 with
           contentBlockIndex := (closeOpenBlock st).2.contentBlockIndex + 1,
           contentBlockOpen := true, openBlockIsTool := false })
    else
      ([.content_block_delta (st.contentBlockIndex - 1) (.text_delta s)], st)

/-- Look up an upstream tool-call index in the accumulator map. -/
def findToolAcc (m : List (Nat × ToolAcc)) (i : Nat) : Option ToolAcc :=
  match m with
  | [] => none
  | (j, acc) :: rest => if j = i then some acc else findToolAcc rest i

/-- Append an arguments delta to the entry of an upstream tool-call index. -/
def appendToolArgs (m : List (Nat × ToolAcc)) (i : Nat) (a : String) : List (Nat × ToolAcc) :=
  match m with
  | [] => []
  | (j, acc) :: rest =>
    if j = i then (j, { acc with args := acc.args ++ a }) :: rest
    else (j, acc) :: appendToolArgs rest i a

/-- Modelled from the spec: §4.3 step 3 for one tool-call entry — a new
upstream index closes any open block and opens a `tool_use` block
(failing when the initiating entry lacks id or name); an arguments
delta, if present, is appended to the accumulator and emitted at the
call's block index. -/
def stepToolCall (st : StreamSt) (tc : DeltaToolCall) : Option (List AnthEvent × StreamSt) :=
  match findToolAcc st.toolCalls tc.index with
  | none =>
    match tc.id, tc.name with
    | some i, some n =>
      some ((closeOpenBlock st).1
              ++ [.content_block_start (closeOpenBlock st).2.contentBlockIndex (.tool_use i n)]
              ++ (match tc.arguments with
                  | some a =>
                    [.content_block_delta (closeOpenBlock st).2.contentBlockIndex
                       (.input_json_delta a)]
                  | none => []),
            { (closeOpenBlock st).2 with
                contentBlockIndex := (closeOpenBlock st).2.contentBlockIndex + 1,
                contentBlockOpen := true, openBlockIsTool := true,
                toolCalls :=
                  (tc.index,
                    ⟨(closeOpenBlock st).2.contentBlockIndex, i, n, tc.arguments.getD ""⟩)
                    :: (closeOpenBlock st).2.toolCalls })
    | _, _ => none
  | some acc =>
    match tc.arguments with
    | some a =>
      some ([.content_block_delta acc.blockIndex (.input_json_delta a)],
            { st with toolCalls := appendToolArgs st.toolCalls tc.index a })
    | none => some ([], st)

/-- Modelled from the spec: §4.3 step 3 folded over the fragment's
tool-call entries; a malformed entry fails the whole fragment. -/
def stepToolCalls (st : StreamSt) : List DeltaToolCall → Option (List AnthEvent × StreamSt)
  | [] => some ([], st)
  | tc :: rest =>
    match stepToolCall st tc with
    | none => none
    | some (evs, st1) =>
      match stepToolCalls st1 rest with
      | none => none
      | some (evs2, st2) => some (evs ++ evs2, st2)

/-- Modelled from the spec: §4.3 step 4 — a present finish reason closes
any open block, emits `message_delta` with the mapped reason and
`message_stop`, and ends the stream's event sequence. -/
def stepFinish (st : StreamSt) : Option FinishReason → List AnthEvent × StreamSt
  | none => ([], st)
  | some r =>
    ((closeOpenBlock st).1
       ++ [.message_delta (mapOpenAIStopReasonToAnthropic (some r)), .message_stop],
     { (closeOpenBlock st).2 with finished := true })

/-- Modelled from the spec: `translateChunkToAnthropicEvents`
(`stream-translation.ts` is not among the provided sources): §4.3 steps
1–4 in order, ignoring fragments after the sequence ended; `none` models
the thrown error on a malformed tool-call start. -/
def translateFragment (st : StreamSt) (f : Fragment) : Option (List AnthEvent × StreamSt) :=
  if st.finished then some ([], st)
  else
    match stepToolCalls
        (stepContent (if st.messageStartSent then st else { st with messageStartSent := true })
          f.content).2 f.tool_calls with
    | none => none
    | some (evs3, st3) =>
      some ((if st.messageStartSent then [] else [AnthEvent.message_start])
              ++ (stepContent
                    (if st.messageStartSent then st else { st with messageStartSent := true })
                    f.content).1
              ++ evs3 ++ (stepFinish st3 f.finish_reason).1,
            (stepFinish st3 f.finish_reason).2)

/-- One raw upstream SSE record as seen by the handler loop: the
`"[DONE]"` sentinel, an absent/empty data field, a decodable chunk, or
undecodable JSON. -/
inductive RawEvent
  | done
  | empty
  | chunk (f : Fragment)
  | malformed
  deriving Repr

/-- The handler loop of `handler.ts`: `"[DONE]"` breaks, empty data
continues, a chunk's translated events are emitted in order, and a
processing error (undecodable JSON or a failing translation) emits one
error event and breaks. -/
def goStream (st : StreamSt) : List RawEvent → List AnthEvent
  | [] => []
  | .done :: _ => []
  | .empty :: rest => goStream st rest
  | .malformed :: _ => [.error]
  | .chunk f :: rest =>
    match translateFragment st f with
    | none => [.error]
    | some (evs, st1) => evs ++ goStream st1 rest

/-- The full event sequence of one stream: `handler.ts` writes the
`ping` event before the loop. -/
def streamEvents (raws : List RawEvent) : List AnthEvent :=
  .ping :: goStream initStreamState raws

/-- Whether the loop successfully translates at least one chunk. -/
def anyProcessed (st : StreamSt) : List RawEvent → Bool
  | [] => false
  | .done :: _ => false
  | .empty :: rest => anyProcessed st rest
  | .malformed :: _ => false
  | .chunk f :: _ =>
    match translateFragment st f with
    | none => false
    | some _ => true

/-- Event discriminator: `message_start`. -/
def isMessageStartEv : AnthEvent → Bool
  | .message_start => true
  | _ => false

/-- Event discriminator: any `content_block_*` event. -/
def isContentBlockEv : AnthEvent → Bool
  | .content_block_start _ _ => true
  | .content_block_delta _ _ => true
  | .content_block_stop _ => true
  | _ => false

/-- Number of `message_start` events in a list. -/
def countMS (l : List AnthEvent) : Nat := (l.filter isMessageStartEv).length

example :
    streamEvents [.chunk { content := some "Hel" }, .chunk { content := some "lo" },
                  .chunk { finish_reason := some .stop }, .done]
      = [.ping, .message_start,
         .content_block_start 0 .text, .content_block_delta 0 (.text_delta "Hel"),
         .content_block_delta 0 (.text_delta "lo"),
         .content_block_stop 0, .message_delta (some .end_turn), .message_stop] := by decide
example : streamEvents [.done] = [.ping] := by decide
example : streamEvents [.malformed] = [.ping, .error] := by decide

/-! ## Helper lemmas -/

theorem takeWhile_append_all {p : Char → Bool} (a : List Char) (c : Char) (b : List Char)
    (ha : ∀ x ∈ a, p x = true) (hc : p c = false) :
    (a ++ c :: b).takeWhile p = a := by
  induction a with
  | nil => simp [List.takeWhile_cons, hc]
  | cons x xs ih =>
    have hx := ha x (by simp)
    simp only [List.cons_append, List.takeWhile_cons, hx, if_true]
    rw [ih (fun y hy => ha y (by simp [hy]))]

theorem dropWhile_append_all {p : Char → Bool} (a : List Char) (c : Char) (b : List Char)
    (ha : ∀ x ∈ a, p x = true) (hc : p c = false) :
    (a ++ c :: b).dropWhile p = c :: b := by
  induction a with
  | nil => simp [List.dropWhile_cons, hc]
  | cons x xs ih =>
    have hx := ha x (by simp)
    simp only [List.cons_append, List.dropWhile_cons, hx, if_true]
    exact ih (fun y hy => ha y (by simp [hy]))

theorem contains_reverse (l : List Char) (c : Char) : l.reverse.contains c = l.contains c := by
  by_cases h : c ∈ l
  · have h1 : l.contains c = true := List.elem_eq_true_of_mem h
    have h2 : l.reverse.contains c = true :=
      List.elem_eq_true_of_mem (List.mem_reverse.mpr h)
    rw [h1, h2]
  · have h1 : l.contains c = false := by
      cases hc : l.contains c
      · rfl
      · exact absurd (List.mem_of_elem_eq_true hc) h
    have h2 : l.reverse.contains c = false := by
      cases hc : l.reverse.contains c
      · rfl
      · exact absurd (List.mem_reverse.mp (List.mem_of_elem_eq_true hc)) h
    rw [h1, h2]

theorem filter_eq_nil_of_any_false {α : Type} (l : List α) (p : α → Bool)
    (h : l.any p = false) : l.filter p = [] := by
  simp only [List.any_eq_false] at h
  rw [List.filter_eq_nil_iff]
  intro a ha
  simp [h a ha]

theorem filter_not_eq_self_of_any_false {α : Type} (l : List α) (p : α → Bool)
    (h : l.any p = false) : l.filter (fun x => !p x) = l := by
  simp only [List.any_eq_false] at h
  rw [List.filter_eq_self]
  intro a ha
  simp [h a ha]

theorem minorMatchR_spec (r d2 d1 r5 : List Char)
    (h : minorMatchR r = some (d2, d1, r5)) :
    d2 = r.takeWhile isDig := by
  unfold minorMatchR at h
  iterate 8 (all_goals (try split at h))
  all_goals (try simp at h)
  all_goals exact h.1.symm

theorem minorRewriteR_self (r : List Char) :
    minorRewriteR (minorRewriteR r) = minorRewriteR r := by
  rcases hm : minorMatchR r with _ | ⟨d2, d1, r5⟩
  · simp [minorRewriteR, hm]
  · have hd2 := minorMatchR_spec r d2 d1 r5 hm
    have hr : minorRewriteR r = d2 ++ '.' :: (d1 ++ '-' :: r5) := by
      simp [minorRewriteR, hm]
    rw [hr]
    have hall : ∀ x ∈ d2, isDig x = true := by
      intro x hx; exact List.mem_takeWhile_imp (hd2 ▸ hx)
    have hdot : isDig '.' = false := by decide
    have hdw := dropWhile_append_all d2 '.' (d1 ++ '-' :: r5) hall hdot
    unfold minorRewriteR minorMatchR
    rw [hdw]
    simp

theorem bracketStrip_of_no_match (s : List Char) (h : bracketHasMatch s = false) :
    bracketStrip s = s := by
  unfold bracketHasMatch at h
  unfold bracketStrip
  rcases hr : bracketReplace s with _ | p
  · rfl
  · rw [hr] at h; simp at h

theorem dateStrip_of_no_match (s : List Char) (h : dateHasMatch s = false) :
    dateStrip s = s := by
  unfold dateStrip
  simp [h]

/-! ## Claim C1 — stop reason of the non-streaming translator

The comment in `translateToAnthropic` reads "Use the finish_reason from
the first choice, or prioritize tool_calls", but the loop condition
`choice.finish_reason === "tool_calls" || stopReason === "stop"`
lets any later choice overwrite a current `"stop"`: with finish reasons
`[stop, length]` the result is `length`, not the first choice's `stop`,
although no choice reports `tool_calls`. -/

/-- C1: evaluating the stop-reason computation at the failing input —
two choices with finish reasons `stop` and `length` (no `tool_calls`
anywhere) yield `length`, where the claim requires the first choice's
`stop`. -/
theorem claim_C1_code_eval :
    computeStopReason
        [{ message := { content := some "a" }, finish_reason := .stop },
         { message := { content := some "b" }, finish_reason := .length }]
      = some FinishReason.length
    ∧ some FinishReason.length ≠ some FinishReason.stop := by
  constructor
  · rfl
  · decide

/-! ## Claim C2 — idempotence of the model-name normalizer -/

/-- C2 counterexample: stripping the date suffix of
`"x-20250514-20250514"` exposes another date suffix, so a second
normalization strips again and the normalizer is not idempotent. -/
theorem claim_C2_counterexample :
    translateModelName (translateModelName "x-20250514-20250514")
      ≠ translateModelName "x-20250514-20250514" := by decide

/-- C2 amended: the normalizer is idempotent on every input whose
normal form does not itself end in a bracket suffix or an 8-digit date
suffix (stripping a date suffix can expose either, and that is the only
way idempotence fails). -/
theorem claim_C2_amended (s : String)
    (hb : bracketHasMatch (translateModelName s).data = false)
    (hd : dateHasMatch (translateModelName s).data = false) :
    translateModelName (translateModelName s) = translateModelName s := by
  have hdata : ∀ l : List Char, (List.asString l).data = l := fun l => rfl
  unfold translateModelName at hb hd ⊢
  rw [hdata] at hb hd
  rw [hdata, bracketStrip_of_no_match _ hb, dateStrip_of_no_match _ hd]
  congr 1
  unfold minorRewrite
  rw [List.reverse_reverse, minorRewriteR_self]

/-- C2 witness: a date-stamped model id normalizes to a fixed point. -/
theorem claim_C2_witness :
    translateModelName (translateModelName "claude-sonnet-4-20250514")
      = translateModelName "claude-sonnet-4-20250514" :=
  claim_C2_amended "claude-sonnet-4-20250514" (by decide) (by decide)

/-! ## Claim C6 — hyphen-to-dot rewrite condition -/

/-- C6 counterexample: `"claude-haiku-4-5"` ends in `-<digits>-<digits>`
but has no earlier `-<digits>` segment, yet the normalizer rewrites it
(the JS pattern `^(.*-\d+)-(\d+)$` requires no earlier segment), so it
does not pass through unchanged as the claim requires. -/
theorem claim_C6_counterexample :
    translateModelName "claude-haiku-4-5" = "claude-haiku-4.5"
    ∧ translateModelName "claude-haiku-4-5" ≠ "claude-haiku-4-5" := by
  constructor
  · decide
  · decide

/-- C6 amended: the rewrite applies exactly to strings of the form
`prefix ++ "-" ++ digits ++ "-" ++ digits` (both digit runs nonempty,
no newline in the prefix) — no earlier `-<digits>` segment is required —
and only the last hyphen/digit pair is converted to a dot. -/
theorem claim_C6_amended (p d1 d2 : List Char)
    (h1 : d1 ≠ []) (h2 : d2 ≠ [])
    (ha1 : ∀ x ∈ d1, isDig x = true) (ha2 : ∀ x ∈ d2, isDig x = true)
    (hnl : p.contains '\n' = false) :
    minorRewrite (p ++ '-' :: d1 ++ '-' :: d2) = p ++ '-' :: d1 ++ '.' :: d2 := by
  unfold minorRewrite
  have hdash : isDig '-' = false := by decide
  have ha2r : ∀ x ∈ d2.reverse, isDig x = true := fun x hx => ha2 x (List.mem_reverse.mp hx)
  have ha1r : ∀ x ∈ d1.reverse, isDig x = true := fun x hx => ha1 x (List.mem_reverse.mp hx)
  have hrev : (p ++ '-' :: d1 ++ '-' :: d2).reverse
      = d2.reverse ++ '-' :: (d1.reverse ++ '-' :: p.reverse) := by
    simp [List.reverse_append]
  rw [hrev]
  have htw2 := takeWhile_append_all d2.reverse '-' (d1.reverse ++ '-' :: p.reverse) ha2r hdash
  have hdw2 := dropWhile_append_all d2.reverse '-' (d1.reverse ++ '-' :: p.reverse) ha2r hdash
  have htw1 := takeWhile_append_all d1.reverse '-' p.reverse ha1r hdash
  have hdw1 := dropWhile_append_all d1.reverse '-' p.reverse ha1r hdash
  have he2 : d2.reverse.isEmpty = false := by
    cases hd : d2.reverse
    · exact absurd (List.reverse_eq_nil_iff.mp hd) h2
    · simp [hd]
  have he1 : d1.reverse.isEmpty = false := by
    cases hd : d1.reverse
    · exact absurd (List.reverse_eq_nil_iff.mp hd) h1
    · simp [hd]
  have hnlr : p.reverse.contains '\n' = false := by rw [contains_reverse]; exact hnl
  have hmem : '\n' ∉ p := by
    intro hm
    have he : p.elem '\n' = false := hnl
    rw [List.elem_eq_true_of_mem hm] at he
    simp at he
  have hm : minorMatchR (d2.reverse ++ '-' :: (d1.reverse ++ '-' :: p.reverse))
      = some (d2.reverse, d1.reverse, p.reverse) := by
    unfold minorMatchR
    rw [hdw2]
    simp [htw2, hdw1, htw1, he2, he1, hnlr, hmem]
  rw [minorRewriteR, hm]
  simp [List.reverse_append]

/-- C6 witness: the amended rewrite at `"claude-haiku-4-5"`. -/
theorem claim_C6_witness :
    minorRewrite ("claude-haiku".data ++ '-' :: ['4'] ++ '-' :: ['5'])
      = "claude-haiku".data ++ '-' :: ['4'] ++ '.' :: ['5'] :=
  claim_C6_amended "claude-haiku".data ['4'] ['5'] (by decide) (by decide)
    (by decide) (by decide) (by decide)

/-! ## Claim C3 — empty mapped string and null content -/

/-- C3 counterexample: an assistant message whose single block is
`text{""}` maps to the empty string, and the translation emits content
`""`, not `null` — only the assistant-with-tool_use path replaces an
empty combined text by `null`. -/
theorem claim_C3_counterexample :
    mapContent (.blocks [ContentBlock.text ""]) = .str ""
    ∧ (handleAssistantMessage ⟨.blocks [ContentBlock.text ""]⟩).map Message.content
        = [MsgContent.str ""]
    ∧ MsgContent.str "" ≠ MsgContent.null := by
  refine ⟨by decide, by decide, by decide⟩

/-- C3 amended: the empty-string-to-null replacement happens exactly in
the assistant-with-tool_use path: when an assistant message carries at
least one `tool_use` block and the combined text of its text/thinking
blocks is empty, the emitted content is `null`. -/
theorem claim_C3_amended (bs : List ContentBlock)
    (ht : 0 < (bs.filter isToolUse).length)
    (he : assistantAllText bs = "") :
    (handleAssistantMessage ⟨.blocks bs⟩).map Message.content = [MsgContent.null] := by
  unfold handleAssistantMessage
  simp only [if_pos ht, he, List.map_cons, List.map_nil]
  simp

/-- C3 witness: an assistant message with only a tool_use block. -/
theorem claim_C3_witness :
    (handleAssistantMessage ⟨.blocks [ContentBlock.tool_use "t" "f" "\x7b\x7d"]⟩).map Message.content
      = [MsgContent.null] :=
  claim_C3_amended [ContentBlock.tool_use "t" "f" "\x7b\x7d"] (by decide) (by decide)

/-! ## Claim C4 — no-image content collapses to ordered joined text -/

/-- The claim's expected value: the text of the text and thinking blocks
joined by a blank-line separator, in the blocks' original order (stated
from the spec's words, for comparison with the code). -/
def orderedJoin (bs : List ContentBlock) : String :=
  String.intercalate "\n\n"
    (bs.filterMap (fun b => match b with
      | .text t => some t
      | .thinking t => some t
      | _ => none))

/-- C4 counterexample: an assistant message with blocks
`[thinking "A", text "B", tool_use …]` (no image block) is translated
with the text block first — content `"B\n\nA"` — whereas the blocks'
original order gives `"A\n\nB"`. -/
theorem claim_C4_counterexample :
    (handleAssistantMessage
        ⟨.blocks [.thinking "A", .text "B", .tool_use "t" "f" "\x7b\x7d"]⟩).map Message.content
      ≠ [MsgContent.str (orderedJoin [.thinking "A", .text "B", .tool_use "t" "f" "\x7b\x7d"])] := by
  decide

/-- The map over filtered text/thinking blocks equals the direct
filterMap of their texts. -/
theorem filter_map_blockText (bs : List ContentBlock) :
    (bs.filter (fun b => isTextBlock b || isThinkingBlock b)).map blockText
      = bs.filterMap (fun b => match b with
          | .text t => some t
          | .thinking t => some t
          | _ => none) := by
  induction bs with
  | nil => rfl
  | cons b rest ih =>
    cases b <;>
      simp [List.filter_cons, List.filterMap_cons, isTextBlock, isThinkingBlock,
        blockText] at ih ⊢ <;>
      exact ih

/-- C4 amended: the original claim holds for user messages (with no
tool_result block) and for assistant messages without tool_use blocks;
assistant messages with tool_use blocks instead join all text blocks
first and all thinking blocks second. -/
theorem claim_C4_amended (bs : List ContentBlock)
    (hImg : bs.any isImageBlock = false) :
    (bs.any isToolUse = false →
       (handleAssistantMessage ⟨.blocks bs⟩).map Message.content
         = [MsgContent.str (orderedJoin bs)])
    ∧ (bs.any isToolResult = false → bs ≠ [] →
       (handleUserMessage ⟨.blocks bs⟩).map Message.content
         = [MsgContent.str (orderedJoin bs)]) := by
  have hmap : mapContent (.blocks bs) = .str (orderedJoin bs) := by
    simp only [mapContent, orderedJoin]
    rw [if_neg (by simp [hImg]), filter_map_blockText]
  constructor
  · intro htu
    have h0 : bs.filter isToolUse = [] := filter_eq_nil_of_any_false bs isToolUse htu
    simp only [handleAssistantMessage]
    rw [h0]
    simp [hmap]
  · intro htr hne
    have h0 : bs.filter isToolResult = [] := filter_eq_nil_of_any_false bs isToolResult htr
    have h1 : bs.filter (fun b => !isToolResult b) = bs :=
      filter_not_eq_self_of_any_false bs isToolResult htr
    simp only [handleUserMessage]
    rw [h0, h1, if_pos (List.length_pos.mpr hne)]
    simp [hmap]

/-- C4 witness: interleaved thinking/text with no image and no tool_use
joins in original order, for both roles. -/
theorem claim_C4_witness :
    ((handleAssistantMessage ⟨.blocks [.thinking "A", .text "B"]⟩).map Message.content
       = [MsgContent.str (orderedJoin [.thinking "A", .text "B"])])
    ∧ ((handleUserMessage ⟨.blocks [.thinking "A", .text "B"]⟩).map Message.content
       = [MsgContent.str (orderedJoin [.thinking "A", .text "B"])]) :=
  ⟨(claim_C4_amended [.thinking "A", .text "B"] (by decide)).1 (by decide),
   (claim_C4_amended [.thinking "A", .text "B"] (by decide)).2 (by decide) (by decide)⟩

/-! ## Claim C5 — splitting of user turns containing tool_result blocks -/

/-- The `tool_use_id` of a `tool_result` block. -/
def toolResultId : ContentBlock → String
  | .tool_result tid _ => tid
  | _ => ""

/-- C5: for a user message whose block list contains tool_result blocks,
the translation emits one tool-role message per tool_result (in order,
with `tool_call_id` equal to the block's `tool_use_id`) first, followed
by exactly one user-role message when other blocks remain — and no
user-role message at all when the remainder is empty. -/
theorem claim_C5 (bs : List ContentBlock)
    (h1 : bs.filter isToolResult ≠ []) :
    ((bs.filter (fun b => !isToolResult b) ≠ [] →
        (handleUserMessage ⟨.blocks bs⟩).map Message.role
          = List.replicate (bs.filter isToolResult).length Role.tool ++ [Role.user]
        ∧ (handleUserMessage ⟨.blocks bs⟩).map Message.tool_call_id
          = (bs.filter isToolResult).map (fun b => some (toolResultId b)) ++ [none])
     ∧ (bs.filter (fun b => !isToolResult b) = [] →
        (handleUserMessage ⟨.blocks bs⟩).map Message.role
          = List.replicate (bs.filter isToolResult).length Role.tool
        ∧ (handleUserMessage ⟨.blocks bs⟩).map Message.tool_call_id
          = (bs.filter isToolResult).map (fun b => some (toolResultId b)))) := by
  have hrole : ((bs.filter isToolResult).map toolResultToMsg).map Message.role
      = List.replicate (bs.filter isToolResult).length Role.tool := by
    rw [List.map_map]
    have : ∀ b, (Message.role ∘ toolResultToMsg) b = Role.tool := by
      intro b; cases b <;> rfl
    calc (bs.filter isToolResult).map (Message.role ∘ toolResultToMsg)
        = (bs.filter isToolResult).map (fun _ => Role.tool) := List.map_congr_left (fun b _ => this b)
      _ = List.replicate (bs.filter isToolResult).length Role.tool := List.map_const' _ _
  have hid : ((bs.filter isToolResult).map toolResultToMsg).map Message.tool_call_id
      = (bs.filter isToolResult).map (fun b => some (toolResultId b)) := by
    rw [List.map_map]
    refine List.map_congr_left ?_
    intro b hb
    have := List.of_mem_filter hb
    cases b <;> simp_all [isToolResult, toolResultToMsg, toolResultId]
  constructor
  · intro h2
    simp only [handleUserMessage]
    rw [if_pos (List.length_pos.mpr h2)]
    constructor
    · rw [List.map_append, hrole]
      simp
    · rw [List.map_append, hid]
      simp
  · intro h2
    simp only [handleUserMessage]
    rw [h2]
    simp [hrole, hid]

/-- C5 witness: the spec's scenario — a tool_result plus a text block. -/
theorem claim_C5_witness :
    (handleUserMessage ⟨.blocks [.tool_result "t1" (.str "42"), .text "thanks"]⟩).map Message.role
      = [Role.tool, Role.user]
    ∧ (handleUserMessage ⟨.blocks [.tool_result "t1" (.str "42"), .text "thanks"]⟩).map Message.tool_call_id
      = [some "t1", none] := by
  have h := (claim_C5 [.tool_result "t1" (.str "42"), .text "thanks"] (by decide)).1 (by decide)
  constructor
  · rw [h.1]; decide
  · rw [h.2]; decide

/-! ## Claim C7 — usage translation -/

/-- C7: for every complete upstream response the translated usage has
`input_tokens = prompt_tokens − cached_tokens` (cached defaulting to 0),
`output_tokens = completion_tokens`, and carries the cache-read counter
exactly when the upstream cached-token detail is present. -/
theorem claim_C7 (r : ChatCompletionResponse) :
    ((translateToAnthropic r).usage.cache_read_input_tokens.isSome
       ↔ (r.usage.bind (·.prompt_tokens_details)).isSome)
    ∧ (∀ u, r.usage = some u →
        (translateToAnthropic r).usage.input_tokens
            = u.prompt_tokens - ((u.prompt_tokens_details.map (·.cached_tokens)).getD 0)
        ∧ (translateToAnthropic r).usage.output_tokens = u.completion_tokens) := by
  constructor
  · cases hu : r.usage with
    | none => simp [translateToAnthropic, hu]
    | some u => cases hd : u.prompt_tokens_details <;> simp [translateToAnthropic, hu, hd]
  · intro u hu
    constructor
    · simp only [translateToAnthropic, hu]
      cases hd : u.prompt_tokens_details <;> simp [hd]
    · simp [translateToAnthropic, hu]

/-- C7 witness: usage `{prompt 10, completion 5, cached 3}` yields
`input_tokens = 7`, `output_tokens = 5`, and a present cache-read counter. -/
theorem claim_C7_witness :
    ((translateToAnthropic
        { id := "i", model := "m", choices := [],
          usage := some { prompt_tokens := 10, completion_tokens := 5, total_tokens := 15,
                          prompt_tokens_details := some { cached_tokens := 3 } } }).usage.cache_read_input_tokens.isSome
       ↔ ((some { prompt_tokens := 10, completion_tokens := 5, total_tokens := 15,
                  prompt_tokens_details := some { cached_tokens := 3 } } : Option CCUsage).bind
            (·.prompt_tokens_details)).isSome)
    ∧ ((translateToAnthropic
          { id := "i", model := "m", choices := [],
            usage := some { prompt_tokens := 10, completion_tokens := 5, total_tokens := 15,
                            prompt_tokens_details := some { cached_tokens := 3 } } }).usage.input_tokens
          = 10 - ((((some { cached_tokens := 3 } : Option PromptTokensDetails)).map (·.cached_tokens)).getD 0)
       ∧ (translateToAnthropic
            { id := "i", model := "m", choices := [],
              usage := some { prompt_tokens := 10, completion_tokens := 5, total_tokens := 15,
                              prompt_tokens_details := some { cached_tokens := 3 } } }).usage.output_tokens = 5) := by
  have h := claim_C7
    { id := "i", model := "m", choices := [],
      usage := some { prompt_tokens := 10, completion_tokens := 5, total_tokens := 15,
                      prompt_tokens_details := some { cached_tokens := 3 } } }
  exact ⟨h.1, h.2 _ rfl⟩

/-! ## Claim C9 — failed external-image fetch degrades gracefully -/

/-- Extract the content-part list of a message, when its content is a
part list. -/
def msgParts (m : Message) : Option (List ContentPart) :=
  match m.content with
  | .parts ps => some ps
  | _ => none

/-- C9: if message `i`, part `j` of the payload is an external image
reference whose fetch fails, external-image resolution (a total
function — the request is never aborted) keeps the message structure and
passes the original part through unchanged. -/
theorem claim_C9 (fetch : String → Option String) (payload : ChatCompletionsPayload)
    (i j : Nat) (m : Message) (ps : List ContentPart) (p : ContentPart)
    (hm : payload.messages[i]? = some m) (hc : m.content = .parts ps)
    (hp : ps[j]? = some p)
    (hext : isExternalImagePart p = true) (hf : fetch (partUrl p) = none) :
    ∃ m', (resolveExternalImages fetch payload).messages[i]? = some m'
      ∧ ∃ ps', m'.content = .parts ps' ∧ ps'[j]? = some p := by
  have hkeep : resolvePart fetch p = p := by
    cases p with
    | text t => rfl
    | image_url u d =>
      simp only [isExternalImagePart] at hext
      simp only [partUrl] at hf
      simp [resolvePart, (by simpa using hext : startsWithDataUri u = false), hf]
  have hhas : hasExternalUrls payload = true := by
    unfold hasExternalUrls
    rw [List.any_eq_true]
    refine ⟨m, List.getElem?_mem hm, ?_⟩
    rw [hc, List.any_eq_true]
    exact ⟨p, List.getElem?_mem hp, hext⟩
  unfold resolveExternalImages
  rw [if_pos hhas]
  refine ⟨resolveMessage fetch m, ?_, ?_⟩
  · simp [List.getElem?_map, hm]
  · refine ⟨ps.map (resolvePart fetch), ?_, ?_⟩
    · simp [resolveMessage, hc]
    · rw [List.getElem?_map, hp]
      simp [hkeep]

/-- C9 witness: a one-message payload with an unreachable external image. -/
theorem claim_C9_witness :
    ∃ m', ((resolveExternalImages (fun _ => none)
        { model := "m",
          messages := [{ role := .user,
                         content := .parts [.image_url "http://example.com/a.png" none] }] }).messages)[0]?
        = some m'
      ∧ ∃ ps', m'.content = .parts ps'
        ∧ ps'[0]? = some (ContentPart.image_url "http://example.com/a.png" none) :=
  claim_C9 (fun _ => none) _ 0 0 _ _ _ rfl rfl rfl (by decide) rfl

/-! ## Claim C10 — the X-Initiator header -/

/-- Pointwise-equal predicates give equal `any`. -/
theorem any_ext {α : Type} (l : List α) (p q : α → Bool) (h : ∀ x, p x = q x) :
    l.any p = l.any q := by
  induction l with
  | nil => rfl
  | cons a t ih => simp [List.any_cons, h a, ih]

/-- Image resolution does not change a message's role. -/
theorem resolveMessage_role (fetch : String → Option String) (m : Message) :
    (resolveMessage fetch m).role = m.role := by
  unfold resolveMessage
  cases h : m.content <;> simp

/-- C10: `createChatCompletions` sends `X-Initiator: agent` exactly when
some payload message has role assistant or tool, and `X-Initiator: user`
otherwise, for every fetch oracle. -/
theorem claim_C10 (fetch : String → Option String) (payload : ChatCompletionsPayload) :
    (xInitiatorHeader fetch payload = "agent"
       ↔ payload.messages.any (fun m => m.role = .assistant || m.role = .tool) = true)
    ∧ (xInitiatorHeader fetch payload = "user"
       ↔ payload.messages.any (fun m => m.role = .assistant || m.role = .tool) = false) := by
  have hpres : isAgentCall (resolveExternalImages fetch payload).messages
      = payload.messages.any (fun m => m.role = .assistant || m.role = .tool) := by
    unfold resolveExternalImages
    by_cases h : hasExternalUrls payload = true
    · rw [if_pos h]
      simp only [isAgentCall, List.any_map]
      exact any_ext _ _ _ (fun m => by simp [Function.comp, resolveMessage_role])
    · rw [if_neg h]
      rfl
  unfold xInitiatorHeader
  rw [hpres]
  cases h : payload.messages.any (fun m => m.role = .assistant || m.role = .tool) <;> decide

/-! ## Claim C8 — stream framing: ping first, message_start once -/

theorem countMS_append (a b : List AnthEvent) : countMS (a ++ b) = countMS a + countMS b := by
  simp [countMS, List.filter_append]

theorem countMS_eq_zero (l : List AnthEvent)
    (h : l.all (fun e => !isMessageStartEv e) = true) : countMS l = 0 := by
  unfold countMS
  rw [List.filter_eq_nil_iff.mpr (fun a ha => by simpa using List.all_eq_true.mp h a ha)]
  rfl

theorem closeOpenBlock_all (st : StreamSt) :
    (closeOpenBlock st).1.all (fun e => !isMessageStartEv e) = true
    ∧ (closeOpenBlock st).2.messageStartSent = st.messageStartSent := by
  unfold closeOpenBlock
  split <;> simp [isMessageStartEv]

theorem stepContent_all (st : StreamSt) (c : Option String) :
    (stepContent st c).1.all (fun e => !isMessageStartEv e) = true
    ∧ (stepContent st c).2.messageStartSent = st.messageStartSent := by
  obtain ⟨h1, h2⟩ := closeOpenBlock_all st
  have h1' : ∀ x ∈ (closeOpenBlock st).1, isMessageStartEv x = false :=
    fun x hx => by simpa using List.all_eq_true.mp h1 x hx
  unfold stepContent
  rcases c with _ | s
  · simp
  · repeat' split
    all_goals simp [List.all_append, isMessageStartEv, h2]
    all_goals exact fun x hx => h1' x hx

theorem stepFinish_all (st : StreamSt) (fr : Option FinishReason) :
    (stepFinish st fr).1.all (fun e => !isMessageStartEv e) = true
    ∧ (stepFinish st fr).2.messageStartSent = st.messageStartSent := by
  obtain ⟨h1, h2⟩ := closeOpenBlock_all st
  have h1' : ∀ x ∈ (closeOpenBlock st).1, isMessageStartEv x = false :=
    fun x hx => by simpa using List.all_eq_true.mp h1 x hx
  unfold stepFinish
  rcases fr with _ | r
  · simp
  · simp [List.all_append, isMessageStartEv, h2]
    exact fun x hx => h1' x hx

theorem stepToolCall_all (st : StreamSt) (tc : DeltaToolCall) (evs : List AnthEvent)
    (st1 : StreamSt) (h : stepToolCall st tc = some (evs, st1)) :
    evs.all (fun e => !isMessageStartEv e) = true
    ∧ st1.messageStartSent = st.messageStartSent := by
  obtain ⟨h1, h2⟩ := closeOpenBlock_all st
  have h1' : ∀ x ∈ (closeOpenBlock st).1, isMessageStartEv x = false :=
    fun x hx => by simpa using List.all_eq_true.mp h1 x hx
  unfold stepToolCall at h
  iterate 6 (all_goals (try split at h))
  all_goals (try (exact Option.noConfusion h))
  all_goals injection h with h
  all_goals injection h with hA hB
  all_goals subst hA
  all_goals subst hB
  all_goals simp [List.all_append, isMessageStartEv, h2]
  all_goals exact fun x hx => h1' x hx

theorem stepToolCalls_all (l : List DeltaToolCall) :
    ∀ (st : StreamSt) (evs : List AnthEvent) (st1 : StreamSt),
      stepToolCalls st l = some (evs, st1) →
      evs.all (fun e => !isMessageStartEv e) = true
      ∧ st1.messageStartSent = st.messageStartSent := by
  induction l with
  | nil =>
    intro st evs st1 h
    unfold stepToolCalls at h
    simp at h
    obtain ⟨rfl, rfl⟩ := h
    simp
  | cons tc rest ih =>
    intro st evs st1 h
    unfold stepToolCalls at h
    rcases htc : stepToolCall st tc with _ | ⟨evs1, stA⟩ <;> rw [htc] at h <;> dsimp only at h
    · exact absurd h (by simp)
    · rcases hrest : stepToolCalls stA rest with _ | ⟨evs2, stB⟩ <;> rw [hrest] at h <;>
        dsimp only at h
      · exact absurd h (by simp)
      · simp at h
        obtain ⟨rfl, rfl⟩ := h
        obtain ⟨m1, s1⟩ := stepToolCall_all st tc evs1 stA htc
        obtain ⟨m2, s2⟩ := ih stA evs2 stB hrest
        refine ⟨by simp [List.all_append, m1, m2], by rw [s2, s1]⟩

theorem translateFragment_all_sent (st : StreamSt) (f : Fragment) (evs : List AnthEvent)
    (st1 : StreamSt) (hsent : st.messageStartSent = true)
    (h : translateFragment st f = some (evs, st1)) :
    evs.all (fun e => !isMessageStartEv e) = true ∧ st1.messageStartSent = true := by
  unfold translateFragment at h
  by_cases hf : st.finished = true
  · rw [if_pos hf] at h
    simp at h
    obtain ⟨rfl, rfl⟩ := h
    exact ⟨rfl, hsent⟩
  · rw [if_neg hf] at h
    simp only [hsent, if_true] at h
    rcases hstc : stepToolCalls (stepContent st f.content).2 f.tool_calls
      with _ | ⟨evs3, st3⟩ <;> rw [hstc] at h <;> dsimp only at h
    · exact absurd h (by simp)
    · simp at h
      obtain ⟨rfl, rfl⟩ := h
      obtain ⟨mc, sc⟩ := stepContent_all st f.content
      obtain ⟨mt, st'⟩ := stepToolCalls_all f.tool_calls (stepContent st f.content).2 evs3 st3 hstc
      obtain ⟨mf, sf⟩ := stepFinish_all st3 f.finish_reason
      refine ⟨by simp [List.all_append, mc, mt, mf], ?_⟩
      rw [sf, st', sc, hsent]

theorem translateFragment_all_unsent (st : StreamSt) (f : Fragment) (evs : List AnthEvent)
    (st1 : StreamSt) (hsent : st.messageStartSent = false) (hfin : st.finished = false)
    (h : translateFragment st f = some (evs, st1)) :
    (∃ tail, evs = AnthEvent.message_start :: tail
       ∧ tail.all (fun e => !isMessageStartEv e) = true)
    ∧ st1.messageStartSent = true := by
  unfold translateFragment at h
  rw [if_neg (by simp [hfin])] at h
  simp only [hsent, Bool.false_eq_true, if_false] at h
  rcases hstc : stepToolCalls
      (stepContent { st with messageStartSent := true } f.content).2 f.tool_calls
    with _ | ⟨evs3, st3⟩ <;> rw [hstc] at h <;> dsimp only at h
  · exact absurd h (by simp)
  · simp at h
    obtain ⟨rfl, rfl⟩ := h
    obtain ⟨mc, sc⟩ := stepContent_all { st with messageStartSent := true } f.content
    obtain ⟨mt, st'⟩ := stepToolCalls_all f.tool_calls
      (stepContent { st with messageStartSent := true } f.content).2 evs3 st3 hstc
    obtain ⟨mf, sf⟩ := stepFinish_all st3 f.finish_reason
    refine ⟨⟨(stepContent { st with messageStartSent := true } f.content).1
               ++ (evs3 ++ (stepFinish st3 f.finish_reason).1), by simp, ?_⟩, ?_⟩
    · simp [List.all_append, mc, mt, mf]
    · rw [sf, st', sc]

theorem goStream_countMS_sent (raws : List RawEvent) :
    ∀ st : StreamSt, st.messageStartSent = true → countMS (goStream st raws) = 0 := by
  induction raws with
  | nil => intro st _; rfl
  | cons r rest ih =>
    intro st hsent
    cases r with
    | done => rfl
    | empty => exact ih st hsent
    | malformed => rfl
    | chunk f =>
      unfold goStream
      rcases h : translateFragment st f with _ | ⟨evs, st1⟩
      · rfl
      · obtain ⟨hms, hs⟩ := translateFragment_all_sent st f evs st1 hsent h
        rw [countMS_append, countMS_eq_zero evs hms, ih st1 hs]

theorem goStream_countMS_unsent (raws : List RawEvent) :
    ∀ st : StreamSt, st.messageStartSent = false → st.finished = false →
      countMS (goStream st raws) = (if anyProcessed st raws then 1 else 0) := by
  induction raws with
  | nil => intro st _ _; rfl
  | cons r rest ih =>
    intro st hsent hfin
    cases r with
    | done => rfl
    | empty => exact ih st hsent hfin
    | malformed => rfl
    | chunk f =>
      unfold goStream anyProcessed
      rcases h : translateFragment st f with _ | ⟨evs, st1⟩
      · simp [countMS, isMessageStartEv]
      · obtain ⟨⟨tail, rfl, htail⟩, hs⟩ :=
          translateFragment_all_unsent st f evs st1 hsent hfin h
        have h1 : countMS (AnthEvent.message_start :: tail) = 1 := by
          unfold countMS
          rw [List.filter_cons]
          have hm : isMessageStartEv AnthEvent.message_start = true := rfl
          rw [if_pos hm, List.length_cons]
          have := countMS_eq_zero tail htail
          unfold countMS at this
          rw [this]
        rw [countMS_append, h1, goStream_countMS_sent rest st1 hs]
        simp

theorem goStream_precedence (raws : List RawEvent) :
    ∀ st : StreamSt, st.messageStartSent = false → st.finished = false →
      ((goStream st raws).takeWhile (fun e => !isMessageStartEv e)).all
        (fun e => !isContentBlockEv e) = true := by
  induction raws with
  | nil => intro st _ _; rfl
  | cons r rest ih =>
    intro st hsent hfin
    cases r with
    | done => rfl
    | empty => exact ih st hsent hfin
    | malformed => rfl
    | chunk f =>
      unfold goStream
      rcases h : translateFragment st f with _ | ⟨evs, st1⟩
      · rfl
      · obtain ⟨⟨tail, rfl, _⟩, _⟩ := translateFragment_all_unsent st f evs st1 hsent hfin h
        simp [List.takeWhile_cons, isMessageStartEv]

/-- C8 counterexample: a stream whose upstream terminates immediately
(`[DONE]` with no prior fragment) emits only `ping` — zero
`message_start` events, not exactly one. -/
theorem claim_C8_counterexample :
    streamEvents [RawEvent.done] = [AnthEvent.ping]
    ∧ countMS (streamEvents [RawEvent.done]) ≠ 1 := by
  constructor
  · rfl
  · decide

/-- C8 amended: for every stream the first emitted event is `ping`;
`message_start` is emitted at most once — exactly once when at least one
chunk is successfully translated and zero times otherwise — and always
before any `content_block_*` event. -/
theorem claim_C8_amended (raws : List RawEvent) :
    (streamEvents raws).head? = some .ping
    ∧ countMS (streamEvents raws) = (if anyProcessed initStreamState raws then 1 else 0)
    ∧ ((streamEvents raws).takeWhile (fun e => !isMessageStartEv e)).all
        (fun e => !isContentBlockEv e) = true := by
  refine ⟨rfl, ?_, ?_⟩
  · have hping : countMS (AnthEvent.ping :: goStream initStreamState raws)
        = countMS (goStream initStreamState raws) := by
      unfold countMS
      rw [List.filter_cons]
      have : isMessageStartEv AnthEvent.ping = false := rfl
      rw [if_neg (by simp [this])]
    unfold streamEvents
    rw [hping, goStream_countMS_unsent raws initStreamState rfl rfl]
  · unfold streamEvents
    rw [List.takeWhile_cons]
    have h : (!isMessageStartEv AnthEvent.ping) = true := rfl
    rw [if_pos h, List.all_cons]
    have h2 : (!isContentBlockEv AnthEvent.ping) = true := rfl
    rw [h2, Bool.true_and]
    exact goStream_precedence raws initStreamState rfl rfl
